import Mathlib

/-!
Verification of the ALCDEF block-format reader `read_alcdef` from
`alcdef_util.py`.  The Python function is shallowly embedded below:
lines are `String`s (already split on newline, as the file reader
supplies them), numeric observation fields are rationals, Python
exceptions become an explicit error type, and the mutable
accumulator lists (`mi`, `li`) with their append-by-reference
aliasing are modelled by an explicit parser state that seals a
block's accumulators only when they are rebound by the next
`STARTMETADATA` (or at end of file), with a multiplicity counter
for repeated `ENDMETADATA` appends of the same list object.
-/

namespace Ssdpu

/-- The Python exceptions `read_alcdef` can raise: `NameError`
(accumulator used before any `STARTMETADATA` assigned it),
`IndexError` (list index out of range), `ValueError` (`float()`
on a non-numeric string), `AttributeError` (the `starstwith`
typo on the COMMA branch of the delimiter update). -/
inductive PyErr where
  | nameError : PyErr
  | indexError : PyErr
  | valueError : PyErr
  | attributeError : PyErr
deriving DecidableEq, Repr

/-- `p` is a prefix of `s`: Python `s.startswith(p)`. -/
def strStarts (p s : String) : Bool :=
  p.data.isPrefixOf s.data

/-- Python `s.rstrip('\n')`: drop trailing newline characters. -/
def rstripNL (s : String) : String :=
  ⟨(s.data.reverse.dropWhile (fun c => c = '\n')).reverse⟩

/-- The character set of Python `lstrip('DATA=')`. -/
def dataEqChars : List Char := ['D', 'A', 'T', '=']

/-- Python `s.lstrip('DATA=')`: drop leading characters drawn from
the set `{D, A, T, =}` (lstrip takes a character set, not a
literal prefix). -/
def lstripDataEq (s : String) : String :=
  ⟨s.data.dropWhile (fun c => dataEqChars.contains c)⟩

/-- Split a character list on a separator character, keeping empty
segments: Python `s.split(sep)` for a one-character `sep`. -/
def splitOnChar (c : Char) : List Char → List (List Char)
  | [] => [[]]
  | x :: xs =>
    let r := splitOnChar c xs
    if x = c then [] :: r
    else
      match r with
      | [] => [[x]]
      | h :: t => (x :: h) :: t

/-- Python `s.split(sep)` for a one-character separator, on strings. -/
def splitStr (c : Char) (s : String) : List String :=
  (splitOnChar c s.data).map (fun l => ⟨l⟩)

/-- Decimal digit accumulation for `parseFloat`. -/
def digitsToNat (ds : List Char) : Nat :=
  ds.foldl (fun a c => a * 10 + (c.toNat - 48)) 0

/-- All characters are decimal digits. -/
def allDigits (ds : List Char) : Bool :=
  ds.all (fun c => c.isDigit)

/-- Python `float()` on the plain decimal literals that occur in
ALCDEF data fields: optional sign, integer part, optional `.` and
fraction, at least one digit.  Returns `none` for non-numeric
strings (Python raises `ValueError` there). -/
def parseFloat (s : String) : Option ℚ :=
  let cs := s.data
  let signNeg : Bool := match cs with | '-' :: _ => true | _ => false
  let body : List Char :=
    match cs with
    | '-' :: rest => rest
    | '+' :: rest => rest
    | _ => cs
  let ip := body.takeWhile (fun c => c ≠ '.')
  let rest := body.dropWhile (fun c => c ≠ '.')
  let fp : List Char := match rest with | [] => [] | _ :: t => t
  if (!ip.isEmpty || !fp.isEmpty) && allDigits ip && allDigits fp then
    let n : Nat := digitsToNat ip * 10 ^ fp.length + digitsToNat fp
    some (mkRat (if signNeg then -(n : Int) else (n : Int)) (10 ^ fp.length))
  else
    none

/-- `float(tmpvals[i])` for the two required fields: `ValueError`
when the string is not numeric. -/
def reqFloat (s : String) : Except PyErr ℚ :=
  match parseFloat s with
  | none => Except.error PyErr.valueError
  | some v => Except.ok v

/-- The field list of a `DATA` line: the line is
`d.rstrip('\n').lstrip('DATA=')` split on the current delimiter. -/
def dataFields (delim : Char) (d : String) : List String :=
  splitStr delim (lstripDataEq (rstripNL d))

/-- The value of an optional field (index 2 or 3): the empty
string is replaced by the sentinel `-66` before conversion
(lines 40–43), any other string goes through `float()`. -/
def optField (s : String) : Option ℚ :=
  if s = "" then some (-66 : ℚ) else parseFloat s

/-- The observation row built from the split field list, mirroring
lines 40–44 of the source: indices 2 and 3 are read first (Python
`IndexError` when missing), the empty string at index 2 or 3
becomes the sentinel `-66`, then the four fields are converted to
numbers in order 0, 1, 2, 3 (`ValueError` on a non-numeric
required field). -/
def rowFromFields (tv : List String) : Except PyErr (List ℚ) :=
  if tv.length < 3 then Except.error PyErr.indexError
  else if tv.length < 4 then Except.error PyErr.indexError
  else
    match parseFloat (tv.getD 0 "") with
    | none => Except.error PyErr.valueError
    | some f0 =>
      match parseFloat (tv.getD 1 "") with
      | none => Except.error PyErr.valueError
      | some f1 =>
        match optField (tv.getD 2 "") with
        | none => Except.error PyErr.valueError
        | some f2 =>
          match optField (tv.getD 3 "") with
          | none => Except.error PyErr.valueError
          | some f3 => Except.ok [f0, f1, f2, f3]

/-- Parsing of one `DATA` line with the current delimiter. -/
def parseDataLine (delim : Char) (d : String) : Except PyErr (List ℚ) :=
  rowFromFields (dataFields delim d)

/-- The delimiter update on a `DELIMITER` line, mirroring lines
50–58 of the source: `d.split('=')[1]` (IndexError when the line
has no `=`), then prefix tests `PIPE` → `|`, `TAB` → tab,
`SPACE` → space; the final branch is the `starstwith` typo, which
raises `AttributeError` whenever it is reached — so any value not
prefixed by PIPE/TAB/SPACE (including COMMA) aborts the parse. -/
def updateDelim (d : String) : Except PyErr Char :=
  let vals := splitStr '=' d
  if vals.length < 2 then Except.error PyErr.indexError
  else
    let v := vals.getD 1 ""
    if strStarts "PIPE" v then Except.ok '|'
    else if strStarts "TAB" v then Except.ok '\t'
    else if strStarts "SPACE" v then Except.ok ' '
    else Except.error PyErr.attributeError

/-- Python dict assignment `md[key] = val` on an insertion-ordered
association list: an existing key keeps its position and gets the
new value, a new key is appended. -/
def dictInsert (m : List (String × String)) (k v : String) : List (String × String) :=
  if m.any (fun kv => kv.1 = k) then
    m.map (fun kv => if kv.1 = k then (k, v) else kv)
  else m ++ [(k, v)]

/-- The metadata post-pass of lines 61–68: each stored line is
split on `=`; `vals[1]` raises `IndexError` when the line has no
`=`; key is `vals[0]`, value is `vals[1]` (the segment between the
first and second `=`), last occurrence of a key wins. -/
def metaBuild (m : List (String × String)) : List String → Except PyErr (List (String × String))
  | [] => Except.ok m
  | line :: rest =>
    if (splitStr '=' line).length < 2 then Except.error PyErr.indexError
    else
      metaBuild
        (dictInsert m ((splitStr '=' line).getD 0 "") ((splitStr '=' line).getD 1 "")) rest

/-- Convert one block's accumulated metadata lines to a mapping. -/
def metaFinalize (ls : List String) : Except PyErr (List (String × String)) :=
  metaBuild [] ls

/-- One block's accumulators: the metadata line list `mi`, the
observation row list `li`, and the number of times `ENDMETADATA`
appended this (aliased) pair to the output lists. -/
structure BlockAcc where
  mi : List String
  li : List (List ℚ)
  emitCount : Nat
deriving DecidableEq, Repr

/-- Parser state: the active delimiter, the blocks whose
accumulators were already rebound (hence final), and the current
block's accumulators (`none` before the first `STARTMETADATA`,
matching the unassigned Python locals `mi`, `li`). -/
structure PState where
  delim : Char
  finished : List BlockAcc
  cur : Option BlockAcc
deriving DecidableEq, Repr

/-- Seal the current accumulators: a block appended at least once
by `ENDMETADATA` joins the finished list with its final contents
(the Python lists are mutated in place after being appended, so
their output content is whatever they hold when rebound). -/
def sealCur (st : PState) : List BlockAcc :=
  match st.cur with
  | none => st.finished
  | some a => if a.emitCount = 0 then st.finished else st.finished ++ [a]

/-- Effect of a `STARTMETADATA` line: `mi = []`, `li = []` rebind
the accumulators, fixing the previous block's contents. -/
def startBlock (st : PState) : PState :=
  { delim := st.delim, finished := sealCur st, cur := some ⟨[], [], 0⟩ }

/-- Effect of an `ENDMETADATA` line (lines 35–37):
`metadata.append(mi)`, `lc.append(li)` — a `NameError` when the
accumulators were never assigned, otherwise one more recorded
append of the current (aliased) accumulator pair. -/
def emApply (st1 : PState) : Except PyErr PState :=
  match st1.cur with
  | none => Except.error PyErr.nameError
  | some a => Except.ok { st1 with cur := some { a with emitCount := a.emitCount + 1 } }

/-- Effect of a `DATA`-prefixed line (lines 38–44): parse the
observation with the current delimiter, then `li.append(...)`
(a `NameError` when `li` was never assigned). -/
def dataApply (st2 : PState) (d : String) : Except PyErr PState :=
  match parseDataLine st2.delim d with
  | Except.error e => Except.error e
  | Except.ok row =>
    match st2.cur with
    | none => Except.error PyErr.nameError
    | some a => Except.ok { st2 with cur := some { a with li := a.li ++ [row] } }

/-- Effect of a non-marker, non-`DATA` line (lines 48–58):
`mi.append(d.rstrip('\n'))` (`NameError` when `mi` was never
assigned), then the delimiter update when `DELIMITER`-prefixed. -/
def metaApply (st2 : PState) (d : String) : Except PyErr PState :=
  match st2.cur with
  | none => Except.error PyErr.nameError
  | some a =>
    let a2 : BlockAcc := { a with mi := a.mi ++ [rstripNL d] }
    if strStarts "DELIMITER" d then
      match updateDelim d with
      | Except.error e => Except.error e
      | Except.ok c => Except.ok { st2 with delim := c, cur := some a2 }
    else Except.ok { st2 with cur := some a2 }

/-- Effect of the `STARTMETADATA` test (lines 32–34): rebind the
accumulators when the line carries the marker. -/
def startApply (st : PState) (d : String) : PState :=
  if strStarts "STARTMETADATA" d then startBlock st else st

/-- One iteration of the `for d in data` loop of `read_alcdef`
(lines 31–58), with the same sequencing: the `STARTMETADATA` test,
then the `ENDMETADATA` test, then the `DATA`-or-else branch; in
the else branch marker lines are skipped, any other line is
appended to `mi` and, when `DELIMITER`-prefixed, also updates the
active delimiter. -/
def pstep (st : PState) (d : String) : Except PyErr PState :=
  match (if strStarts "ENDMETADATA" d then emApply (startApply st d)
         else Except.ok (startApply st d)) with
  | Except.error e => Except.error e
  | Except.ok st2 =>
    if strStarts "DATA" d then dataApply st2 d
    else if strStarts "STARTMETADATA" d || strStarts "ENDMETADATA" d || strStarts "ENDDATA" d then
      Except.ok st2
    else metaApply st2 d

/-- Run the per-line loop over the whole file. -/
def runLines (st : PState) : List String → Except PyErr PState
  | [] => Except.ok st
  | d :: rest =>
    match pstep st d with
    | Except.error e => Except.error e
    | Except.ok st' => runLines st' rest

/-- Initial state: `delimiter = '|'`, no accumulators assigned. -/
def initState : PState := ⟨'|', [], none⟩

/-- The metadata post-pass applied to every emitted block. -/
def metaAll : List (List String) → Except PyErr (List (List (String × String)))
  | [] => Except.ok []
  | x :: xs =>
    match metaFinalize x with
    | Except.error e => Except.error e
    | Except.ok m =>
      match metaAll xs with
      | Except.error e => Except.error e
      | Except.ok ms => Except.ok (m :: ms)

/-- The emitted (aliased) metadata line lists, one per
`ENDMETADATA` occurrence, in file order. -/
def rawMetaOf (bs : List BlockAcc) : List (List String) :=
  (bs.map (fun a => List.replicate a.emitCount a.mi)).flatten

/-- The emitted (aliased) observation tables, one per
`ENDMETADATA` occurrence, in file order. -/
def rawLcOf (bs : List BlockAcc) : List (List (List ℚ)) :=
  (bs.map (fun a => List.replicate a.emitCount a.li)).flatten

instance {ε α : Type} [DecidableEq ε] [DecidableEq α] : DecidableEq (Except ε α) := fun a b =>
  match a, b with
  | Except.ok x, Except.ok y =>
    if h : x = y then isTrue (by rw [h]) else isFalse (by intro hc; cases hc; exact h rfl)
  | Except.error x, Except.error y =>
    if h : x = y then isTrue (by rw [h]) else isFalse (by intro hc; cases hc; exact h rfl)
  | Except.ok _, Except.error _ => isFalse (by intro hc; cases hc)
  | Except.error _, Except.ok _ => isFalse (by intro hc; cases hc)

/-- `read_alcdef` on the file's line list: run the loop, seal the
last block, then convert each emitted metadata line list into a
mapping (the observation lists are already numeric rows). -/
def read_alcdef (lines : List String) :
    Except PyErr (List (List (String × String)) × List (List (List ℚ))) :=
  match runLines initState lines with
  | Except.error e => Except.error e
  | Except.ok st =>
    let blocks := sealCur st
    match metaAll (rawMetaOf blocks) with
    | Except.error e => Except.error e
    | Except.ok ms => Except.ok (ms, rawLcOf blocks)

/-- The marker state machine of the spec's §4: `outside` a block,
`inMeta` between `STARTMETADATA` and `ENDMETADATA`, `inData`
between `ENDMETADATA` and `ENDDATA`. -/
inductive MState where
  | outside : MState
  | inMeta : MState
  | inData : MState
deriving DecidableEq, Repr

/-- One marker transition; `none` when a marker appears in the
wrong state (out-of-order markers). -/
def mstep (s : MState) (d : String) : Option MState :=
  if strStarts "STARTMETADATA" d then
    match s with | MState.outside => some MState.inMeta | _ => none
  else if strStarts "ENDMETADATA" d then
    match s with | MState.inMeta => some MState.inData | _ => none
  else if strStarts "ENDDATA" d then
    match s with | MState.inData => some MState.outside | _ => none
  else some s

/-- Run the marker machine over the file. -/
def mrun (s : MState) : List String → Option MState
  | [] => some s
  | d :: rest =>
    match mstep s d with
    | none => none
    | some s' => mrun s' rest

/-- A file is well-formed when the marker machine, started
`outside`, consumes every line and ends `outside`. -/
def wellFormed (lines : List String) : Bool :=
  match mrun MState.outside lines with
  | some MState.outside => true
  | _ => false

/-- The number of lines carrying a given marker prefix. -/
def countPfx (p : String) (lines : List String) : Nat :=
  (lines.filter (fun d => strStarts p d)).length

/-- Total number of `ENDMETADATA` appends recorded in a parser
state: each one contributes one entry to both output lists. -/
def emitTotal (st : PState) : Nat :=
  (st.finished.map BlockAcc.emitCount).sum +
    (match st.cur with | none => 0 | some a => a.emitCount)

/-- C1: the seven-line example file yields exactly one metadata
mapping `{OBJECTNAME: "433 Eros", DELIMITER: "PIPE"}` and one
observation table with rows `[2458000.5, 15.23, -66, 1.02]` and
`[2458000.6, 15.25, 0.01, -66]`. -/
theorem c1_example_parse :
    read_alcdef ["STARTMETADATA", "OBJECTNAME=433 Eros", "DELIMITER=PIPE", "ENDMETADATA",
      "DATA=2458000.5|15.23||1.02", "DATA=2458000.6|15.25|0.01|", "ENDDATA"] =
    Except.ok ([[("OBJECTNAME", "433 Eros"), ("DELIMITER", "PIPE")]],
      [[[(2458000.5 : ℚ), 15.23, -66, 1.02], [2458000.6, 15.25, 0.01, -66]]]) := by
  rw [show (2458000.5 : ℚ) = mkRat 24580005 10 from by norm_num,
    show (15.23 : ℚ) = mkRat 1523 100 from by norm_num,
    show (1.02 : ℚ) = mkRat 102 100 from by norm_num,
    show (2458000.6 : ℚ) = mkRat 24580006 10 from by norm_num,
    show (15.25 : ℚ) = mkRat 1525 100 from by norm_num,
    show (0.01 : ℚ) = mkRat 1 100 from by norm_num]
  decide

/-- C5, failing input: the claim says `DELIMITER=COMMA` sets the
comma separator and comma-separated `DATA` lines then parse; the
code instead aborts with `AttributeError`, because the COMMA
branch of the delimiter update is the misspelled method call
`starstwith`, which is evaluated for every value not prefixed by
PIPE/TAB/SPACE. -/
theorem c5_comma_attribute_err :
    read_alcdef ["STARTMETADATA", "DELIMITER=COMMA", "ENDMETADATA",
      "DATA=1,2,3,4", "ENDDATA"] = Except.error PyErr.attributeError := by
  decide

/-- C7, counterexample: a file consisting of a lone
`STARTMETADATA` leaves the marker machine in a non-`outside`
state, yet the parse returns normally (with zero blocks) instead
of failing — the source performs no end-of-file balance check. -/
theorem c7_unbalanced_cex :
    wellFormed ["STARTMETADATA"] = false ∧
    read_alcdef ["STARTMETADATA"] = Except.ok ([], []) := by
  constructor
  · decide
  · decide

/-- C7, amended: the parser checks no marker balance at end of
file.  A file ending inside a block returns normally: a lone
`STARTMETADATA` yields zero blocks, `STARTMETADATA, ENDMETADATA`
yields one (empty) block; failures come only from per-line errors,
e.g. `ENDMETADATA` before any `STARTMETADATA` raises the
unassigned-accumulator error. -/
theorem c7_unbalanced_returns :
    read_alcdef ["STARTMETADATA"] = Except.ok ([], []) ∧
    read_alcdef ["STARTMETADATA", "ENDMETADATA"] = Except.ok ([[]], [[]]) ∧
    read_alcdef ["ENDMETADATA"] = Except.error PyErr.nameError := by
  refine ⟨by decide, by decide, by decide⟩

/-- C4, counterexample: the delimiter is not block-scoped.  A
`DELIMITER=TAB` line in the first block persists into the second
block: the same tab-separated `DATA` line that fails in a
one-block file (split on the default pipe it yields a single
field, an out-of-range access) parses successfully in the second
block of a file whose first block selected TAB. -/
theorem c4_delim_carryover_cex :
    read_alcdef ["STARTMETADATA", "DELIMITER=TAB", "ENDMETADATA", "ENDDATA",
      "STARTMETADATA", "ENDMETADATA", "DATA=1\t2\t3\t4", "ENDDATA"] =
      Except.ok ([[("DELIMITER", "TAB")], []],
        [[], [[(1 : ℚ), 2, 3, 4]]]) ∧
    read_alcdef ["STARTMETADATA", "ENDMETADATA", "DATA=1\t2\t3\t4", "ENDDATA"] =
      Except.error PyErr.indexError := by
  refine ⟨by decide, by decide⟩

theorem startApply_delim (st : PState) (d : String) : (startApply st d).delim = st.delim := by
  unfold startApply startBlock
  split <;> rfl

theorem emApply_delim {st1 st2 : PState} (h : emApply st1 = Except.ok st2) :
    st2.delim = st1.delim := by
  unfold emApply at h
  split at h
  · exact Except.noConfusion h
  · injection h with h
    subst h
    rfl

theorem dataApply_delim {st2 : PState} {d : String} {st' : PState}
    (h : dataApply st2 d = Except.ok st') : st'.delim = st2.delim := by
  unfold dataApply at h
  split at h
  · exact Except.noConfusion h
  · split at h
    · exact Except.noConfusion h
    · injection h with h
      subst h
      rfl

theorem metaApply_delim {st2 : PState} {d : String} {st' : PState}
    (hnd : strStarts "DELIMITER" d = false) (h : metaApply st2 d = Except.ok st') :
    st'.delim = st2.delim := by
  unfold metaApply at h
  split at h
  · exact Except.noConfusion h
  · simp only [hnd, Bool.false_eq_true, if_false] at h
    injection h with h
    subst h
    rfl

theorem pstep_tail_delim {st2 : PState} {d : String} {st' : PState} {b : Bool}
    (hnd : strStarts "DELIMITER" d = false)
    (h : (if strStarts "DATA" d then dataApply st2 d
          else if b then Except.ok st2
          else metaApply st2 d) = Except.ok st') :
    st'.delim = st2.delim := by
  split at h
  · exact dataApply_delim h
  · split at h
    · injection h with h
      subst h
      rfl
    · exact metaApply_delim hnd h

/-- C4, amended: the delimiter defaults to the pipe character at
the start of parsing each file and is file-scoped, not
block-scoped: only a `DELIMITER`-prefixed line changes it, and the
change persists for all subsequent `DATA` lines of the file —
including later blocks — until the next `DELIMITER` line; rows
already parsed are of course unaffected. -/
theorem c4_delim_filescoped :
    initState.delim = '|' ∧
    ∀ (st : PState) (d : String) (st' : PState),
      strStarts "DELIMITER" d = false → pstep st d = Except.ok st' →
      st'.delim = st.delim := by
  refine ⟨rfl, ?_⟩
  intro st d st' hnd h
  unfold pstep at h
  by_cases hEM : strStarts "ENDMETADATA" d <;>
    simp only [hEM, Bool.false_eq_true, ite_true, ite_false] at h
  · split at h
    · exact Except.noConfusion h
    · rename_i st2 heq
      rw [pstep_tail_delim hnd h, emApply_delim heq, startApply_delim]
  · rw [pstep_tail_delim hnd h, startApply_delim]

theorem c4_delim_filescoped_witness :
    strStarts "DELIMITER" "STARTMETADATA" = false ∧
    pstep (PState.mk '\t' [] (some (BlockAcc.mk [] [] 1))) "STARTMETADATA" =
      Except.ok (PState.mk '\t' [BlockAcc.mk [] [] 1] (some (BlockAcc.mk [] [] 0))) ∧
    (PState.mk '\t' [BlockAcc.mk [] [] 1] (some (BlockAcc.mk [] [] 0))).delim =
      (PState.mk '\t' [] (some (BlockAcc.mk [] [] 1))).delim :=
  ⟨by decide, by decide, c4_delim_filescoped.2 _ "STARTMETADATA" _ (by decide) (by decide)⟩

/-- C9, counterexample: a non-marker line outside any block is not
ignored.  Appearing before the first `STARTMETADATA` it aborts the
whole parse (the accumulator `mi` was never assigned), so its
presence changes the result of the surrounding block from success
to failure; and a line without `=` after a completed block aborts
the metadata post-pass. -/
theorem c9_outside_line_cex :
    read_alcdef ["STARTMETADATA", "ENDMETADATA", "ENDDATA"] = Except.ok ([[]], [[]]) ∧
    read_alcdef ["random junk", "STARTMETADATA", "ENDMETADATA", "ENDDATA"] =
      Except.error PyErr.nameError ∧
    read_alcdef ["STARTMETADATA", "ENDMETADATA", "ENDDATA", "random junk"] =
      Except.error PyErr.indexError := by
  refine ⟨by decide, by decide, by decide⟩

/-- C9, amended: a non-marker line outside a block envelope is not
ignored: before the first `STARTMETADATA` it raises the
unassigned-accumulator error; after a completed block it is
appended to that block's (still aliased) metadata accumulator, so
a `KEY=VALUE` line appears in the previous block's returned
mapping, and a line without `=` makes the metadata post-pass fail. -/
theorem c9_outside_line_effects :
    read_alcdef ["FOO=BAR"] = Except.error PyErr.nameError ∧
    read_alcdef ["STARTMETADATA", "ENDMETADATA", "ENDDATA", "FOO=BAR"] =
      Except.ok ([[("FOO", "BAR")]], [[]]) := by
  refine ⟨by decide, by decide⟩

/-- C8, counterexample: metadata lines are not split on the first
`=` into key and the remaining text.  Python `line.split('=')`
splits on every `=` and `vals[1]` is only the segment between the
first and the second `=`: the line `A=B=C` stores value `B`, not
`B=C`. -/
theorem c8_split_first_eq_cex :
    read_alcdef ["STARTMETADATA", "A=B=C", "ENDMETADATA", "ENDDATA"] =
      Except.ok ([[("A", "B")]], [[]]) ∧
    read_alcdef ["STARTMETADATA", "A=B=C", "ENDMETADATA", "ENDDATA"] ≠
      Except.ok ([[("A", "B=C")]], [[]]) := by
  refine ⟨by decide, by decide⟩

theorem optField_empty {s : String} (h : s = "") : optField s = some (-66 : ℚ) := by
  rw [optField, if_pos h]

theorem optField_of_ne {s : String} {v : ℚ} (h : s ≠ "") (h2 : optField s = some v) :
    parseFloat s = some v := by
  rwa [optField, if_neg h] at h2

/-- C2: whenever a `DATA` line parses into a row, the row has
exactly 4 numeric fields; fields 0 and 1 (JD, Mag) are exactly the
`float()` value of the corresponding split field (no sentinel
fallback — a non-numeric string there cannot produce a row, only
the value error); field 2 (DeltaMag) and field 3 (Airmass) are the
sentinel `-66` when the split field is the empty string, and
otherwise the `float()` value of the source field — so they can be
`-66` only when the source literally encoded it. -/
theorem c2_data_sentinel (delim : Char) (d : String) (row : List ℚ)
    (h : parseDataLine delim d = Except.ok row) :
    row.length = 4 ∧
    parseFloat ((dataFields delim d).getD 0 "") = some (row.getD 0 0) ∧
    parseFloat ((dataFields delim d).getD 1 "") = some (row.getD 1 0) ∧
    ((dataFields delim d).getD 2 "" = "" → row.getD 2 0 = -66) ∧
    ((dataFields delim d).getD 2 "" ≠ "" →
      parseFloat ((dataFields delim d).getD 2 "") = some (row.getD 2 0)) ∧
    ((dataFields delim d).getD 3 "" = "" → row.getD 3 0 = -66) ∧
    ((dataFields delim d).getD 3 "" ≠ "" →
      parseFloat ((dataFields delim d).getD 3 "") = some (row.getD 3 0)) := by
  unfold parseDataLine rowFromFields at h
  split at h
  · exact Except.noConfusion h
  split at h
  · exact Except.noConfusion h
  split at h
  · exact Except.noConfusion h
  rename_i f0 h0
  split at h
  · exact Except.noConfusion h
  rename_i f1 h1
  split at h
  · exact Except.noConfusion h
  rename_i f2 h2
  split at h
  · exact Except.noConfusion h
  rename_i f3 h3
  injection h with h
  subst h
  refine ⟨rfl, h0, h1, ?_, ?_, ?_, ?_⟩
  · intro hc
    have := (optField_empty hc).symm.trans h2
    injection this with this
    exact this.symm
  · intro hc
    exact optField_of_ne hc h2
  · intro hc
    have := (optField_empty hc).symm.trans h3
    injection this with this
    exact this.symm
  · intro hc
    exact optField_of_ne hc h3

theorem c2_data_sentinel_witness :
    parseDataLine '|' "DATA=2.5|3.5||1.25" = Except.ok [(2.5 : ℚ), 3.5, -66, 1.25] ∧
    ([(2.5 : ℚ), 3.5, -66, 1.25].length = 4 ∧
      parseFloat ((dataFields '|' "DATA=2.5|3.5||1.25").getD 0 "") =
        some ([(2.5 : ℚ), 3.5, -66, 1.25].getD 0 0) ∧
      parseFloat ((dataFields '|' "DATA=2.5|3.5||1.25").getD 1 "") =
        some ([(2.5 : ℚ), 3.5, -66, 1.25].getD 1 0) ∧
      ((dataFields '|' "DATA=2.5|3.5||1.25").getD 2 "" = "" →
        [(2.5 : ℚ), 3.5, -66, 1.25].getD 2 0 = -66) ∧
      ((dataFields '|' "DATA=2.5|3.5||1.25").getD 2 "" ≠ "" →
        parseFloat ((dataFields '|' "DATA=2.5|3.5||1.25").getD 2 "") =
          some ([(2.5 : ℚ), 3.5, -66, 1.25].getD 2 0)) ∧
      ((dataFields '|' "DATA=2.5|3.5||1.25").getD 3 "" = "" →
        [(2.5 : ℚ), 3.5, -66, 1.25].getD 3 0 = -66) ∧
      ((dataFields '|' "DATA=2.5|3.5||1.25").getD 3 "" ≠ "" →
        parseFloat ((dataFields '|' "DATA=2.5|3.5||1.25").getD 3 "") =
          some ([(2.5 : ℚ), 3.5, -66, 1.25].getD 3 0))) := by
  have hlit : ((2.5 : ℚ) = mkRat 25 10) ∧ ((3.5 : ℚ) = mkRat 35 10) ∧
      ((1.25 : ℚ) = mkRat 125 100) := by norm_num
  obtain ⟨h1, h2, h3⟩ := hlit
  rw [h1, h2, h3]
  have hok : parseDataLine '|' "DATA=2.5|3.5||1.25" =
      Except.ok [mkRat 25 10, mkRat 35 10, -66, mkRat 125 100] := by decide
  exact ⟨hok, c2_data_sentinel '|' "DATA=2.5|3.5||1.25" _ hok⟩

theorem rowFromFields_take (tv : List String) :
    rowFromFields tv = rowFromFields (tv.take 4) := by
  rcases tv with _ | ⟨a, _ | ⟨b, _ | ⟨c, _ | ⟨e, rest⟩⟩⟩⟩
  · rfl
  · rfl
  · rfl
  · rfl
  · unfold rowFromFields
    rw [if_neg (show ¬((a :: b :: c :: e :: rest).length < 3) from by
          simp only [List.length_cons]; omega),
      if_neg (show ¬((a :: b :: c :: e :: rest).length < 4) from by
          simp only [List.length_cons]; omega)]
    rfl

/-- C10: a `DATA` line whose payload splits into fewer than 4
fields under the current delimiter raises the out-of-range
`IndexError` instead of emitting a padded or truncated row; and
the result of parsing is entirely determined by the first 4 split
fields, so any fields beyond the first 4 are silently discarded. -/
theorem c10_field_arity (delim : Char) (d : String) :
    ((dataFields delim d).length < 4 →
      parseDataLine delim d = Except.error PyErr.indexError) ∧
    parseDataLine delim d = rowFromFields ((dataFields delim d).take 4) := by
  constructor
  · intro hlen
    unfold parseDataLine rowFromFields
    by_cases h3 : (dataFields delim d).length < 3
    · rw [if_pos h3]
    · rw [if_neg h3, if_pos hlen]
  · exact rowFromFields_take (dataFields delim d)

theorem c10_field_arity_witness :
    (dataFields '|' "DATA=1|2|3").length < 4 ∧
    parseDataLine '|' "DATA=1|2|3" = Except.error PyErr.indexError :=
  ⟨by decide, (c10_field_arity '|' "DATA=1|2|3").1 (by decide)⟩

theorem isPrefixOf_trans {α : Type} [BEq α] [LawfulBEq α] {p q r : List α}
    (h1 : p.isPrefixOf q = true) (h2 : q.isPrefixOf r = true) : p.isPrefixOf r = true := by
  induction p generalizing q r with
  | nil => simp
  | cons a as ih =>
    cases q with
    | nil => simp [List.isPrefixOf] at h1
    | cons b bs =>
      cases r with
      | nil => simp [List.isPrefixOf] at h2
      | cons c cs =>
        rw [List.isPrefixOf_cons₂] at h1 h2 ⊢
        simp only [Bool.and_eq_true, beq_iff_eq] at h1 h2 ⊢
        exact ⟨h1.1.trans h2.1, ih h1.2 h2.2⟩

theorem isPrefixOf_comparable {α : Type} [BEq α] [LawfulBEq α] {p q r : List α}
    (hp : p.isPrefixOf r = true) (hq : q.isPrefixOf r = true)
    (hlen : p.length ≤ q.length) : p.isPrefixOf q = true := by
  induction p generalizing q r with
  | nil => simp
  | cons a as ih =>
    cases r with
    | nil => simp [List.isPrefixOf] at hp
    | cons c cs =>
      cases q with
      | nil => simp at hlen
      | cons b bs =>
        rw [List.isPrefixOf_cons₂] at hp hq ⊢
        simp only [Bool.and_eq_true, beq_iff_eq] at hp hq ⊢
        refine ⟨hp.1.trans hq.1.symm, ih hp.2 hq.2 ?_⟩
        simpa using Nat.succ_le_succ_iff.mp hlen

theorem strStarts_mono {p q d : String} (hpq : strStarts p q = true)
    (h : strStarts q d = true) : strStarts p d = true :=
  isPrefixOf_trans hpq h

theorem strStarts_of_both {p q d : String} (hp : strStarts p d = true)
    (hq : strStarts q d = true) (hlen : p.data.length ≤ q.data.length) :
    strStarts p q = true :=
  isPrefixOf_comparable hp hq hlen

theorem not_em_of_data {d : String} (h : strStarts "DATA" d = true) :
    strStarts "ENDMETADATA" d = false := by
  by_contra hc
  rw [Bool.not_eq_false] at hc
  have := strStarts_of_both h hc (by decide)
  exact absurd this (by decide)

theorem dataApply_none {st : PState} {d : String} (h : st.cur = none) :
    ∃ e, dataApply st d = Except.error e := by
  unfold dataApply
  cases hp : parseDataLine st.delim d with
  | error e => exact ⟨e, by simp only [hp]⟩
  | ok row => exact ⟨PyErr.nameError, by simp only [hp, h]⟩

theorem metaApply_none {st : PState} {d : String} (h : st.cur = none) :
    metaApply st d = Except.error PyErr.nameError := by
  unfold metaApply
  rw [h]

theorem emApply_none {st : PState} (h : st.cur = none) :
    emApply st = Except.error PyErr.nameError := by
  unfold emApply
  rw [h]

theorem startApply_of_neg {st : PState} {d : String}
    (h : strStarts "STARTMETADATA" d = false) : startApply st d = st := by
  simp [startApply, h]

theorem pstep_cur_none {st : PState} {d : String} {st' : PState}
    (hS : strStarts "STARTMETADATA" d = false) (hc : st.cur = none)
    (h : pstep st d = Except.ok st') : st'.cur = none := by
  unfold pstep at h
  rw [startApply_of_neg hS] at h
  by_cases hEM : strStarts "ENDMETADATA" d
  · rw [if_pos hEM, emApply_none hc] at h
    exact Except.noConfusion h
  · rw [if_neg hEM] at h
    simp only [] at h
    split at h
    · obtain ⟨e, he⟩ := dataApply_none (d := d) hc
      rw [he] at h
      exact Except.noConfusion h
    · split at h
      · injection h with h
        subst h
        exact hc
      · rw [metaApply_none hc] at h
        exact Except.noConfusion h

theorem runLines_err_of_data_no_start (lines : List String) (st : PState)
    (hcur : st.cur = none) (i : Nat) (hi : i < lines.length)
    (hdata : strStarts "DATA" (lines.getD i "") = true)
    (hnostart : ∀ j, j ≤ i → strStarts "STARTMETADATA" (lines.getD j "") = false) :
    ∃ e, runLines st lines = Except.error e := by
  induction lines generalizing st i with
  | nil => exact absurd hi (Nat.not_lt_zero i)
  | cons d rest ih =>
    have hS : strStarts "STARTMETADATA" d = false := hnostart 0 (Nat.zero_le i)
    cases i with
    | zero =>
      have hd : strStarts "DATA" d = true := hdata
      have hEM : strStarts "ENDMETADATA" d = false := not_em_of_data hd
      obtain ⟨e, he⟩ := dataApply_none (d := d) hcur
      refine ⟨e, ?_⟩
      have hps : pstep st d = Except.error e := by
        unfold pstep
        rw [startApply_of_neg hS, hEM]
        simp only [Bool.false_eq_true, if_false, hd, if_true, he]
      simp only [runLines, hps]
    | succ k =>
      cases hps : pstep st d with
      | error e => exact ⟨e, by simp only [runLines, hps]⟩
      | ok st' =>
        have hcur' : st'.cur = none := pstep_cur_none hS hcur hps
        obtain ⟨e, he⟩ := ih st' hcur' k (Nat.lt_of_succ_lt_succ hi) hdata
          (fun j hj => hnostart (j + 1) (Nat.succ_le_succ hj))
        exact ⟨e, by simp only [runLines, hps, he]⟩

/-- C6: a file containing a `DATA=` line before any
`STARTMETADATA` line makes `read_alcdef` fail (the observation
accumulator was never assigned, or the field access on the
malformed line fails first); it never returns a result for such a
file. -/
theorem c6_data_before_start_errors (lines : List String) (i : Nat)
    (hi : i < lines.length)
    (hdata : strStarts "DATA=" (lines.getD i "") = true)
    (hnostart : ∀ j, j ≤ i → strStarts "STARTMETADATA" (lines.getD j "") = false) :
    ∃ e, read_alcdef lines = Except.error e := by
  have hd : strStarts "DATA" (lines.getD i "") = true :=
    strStarts_mono (by decide) hdata
  obtain ⟨e, he⟩ := runLines_err_of_data_no_start lines initState rfl i hi hd hnostart
  exact ⟨e, by simp only [read_alcdef, he]⟩

theorem c6_data_before_start_errors_witness :
    ∃ e, read_alcdef ["DATA=1|2|3|4"] = Except.error e :=
  c6_data_before_start_errors ["DATA=1|2|3|4"] 0 (by decide) (by decide)
    (fun j hj => by
      have : j = 0 := Nat.le_zero.mp hj
      subst this
      decide)

theorem splitOnChar_ne_nil (c : Char) (cs : List Char) : splitOnChar c cs ≠ [] := by
  cases cs with
  | nil => simp [splitOnChar]
  | cons x xs =>
    simp only [splitOnChar]
    split
    · simp
    · split <;> simp

theorem splitOnChar_no_sep (c : Char) (cs : List Char) :
    ∀ seg ∈ splitOnChar c cs, c ∉ seg := by
  induction cs with
  | nil =>
    intro seg hseg
    simp only [splitOnChar, List.mem_singleton] at hseg
    subst hseg
    simp
  | cons x xs ih =>
    intro seg hseg
    simp only [splitOnChar] at hseg
    by_cases hx : x = c
    · rw [if_pos hx] at hseg
      rcases List.mem_cons.mp hseg with h | h
      · subst h; simp
      · exact ih seg h
    · rw [if_neg hx] at hseg
      rcases hr : splitOnChar c xs with _ | ⟨h0, t⟩
      · exact absurd hr (splitOnChar_ne_nil c xs)
      · rw [hr] at hseg
        rcases List.mem_cons.mp hseg with h | h
        · subst h
          intro hmem
          rcases List.mem_cons.mp hmem with h' | h'
          · exact hx h'.symm
          · exact ih h0 (by rw [hr]; exact List.mem_cons_self h0 t) h'
        · exact ih seg (by rw [hr]; exact List.mem_cons_of_mem h0 h)

theorem splitOnChar_single (c : Char) (xs : List Char) (hx : c ∉ xs) :
    splitOnChar c xs = [xs] := by
  induction xs with
  | nil => rfl
  | cons x xs ih =>
    have hxc : ¬ x = c := by
      intro h
      subst h
      exact hx (List.mem_cons_self x xs)
    have hx' : c ∉ xs := fun h => hx (List.mem_cons_of_mem x h)
    simp only [splitOnChar, if_neg hxc, ih hx']

theorem splitOnChar_append_sep (c : Char) (xs ys : List Char) (hx : c ∉ xs) :
    splitOnChar c (xs ++ c :: ys) = xs :: splitOnChar c ys := by
  induction xs with
  | nil =>
    show (if c = c then [] :: splitOnChar c ys
          else match splitOnChar c ys with
               | [] => [[c]]
               | h :: t => (c :: h) :: t) = [] :: splitOnChar c ys
    rw [if_pos rfl]
  | cons x xs ih =>
    have hxc : ¬ x = c := by
      intro h
      subst h
      exact hx (List.mem_cons_self x xs)
    have hx' : c ∉ xs := fun h => hx (List.mem_cons_of_mem x h)
    show (if x = c then [] :: splitOnChar c (xs ++ c :: ys)
          else match splitOnChar c (xs ++ c :: ys) with
               | [] => [[x]]
               | h :: t => (x :: h) :: t) = (x :: xs) :: splitOnChar c ys
    rw [if_neg hxc, ih hx']

theorem splitStr_no_sep (c : Char) (s : String) :
    ∀ t ∈ splitStr c s, c ∉ t.data := by
  intro t ht
  unfold splitStr at ht
  obtain ⟨seg, hseg, hts⟩ := List.mem_map.mp ht
  subst hts
  exact splitOnChar_no_sep c s.data seg hseg

theorem splitStr_cat (k v : String) (hk : '=' ∉ k.data) (hv : '=' ∉ v.data) :
    splitStr '=' (k ++ "=" ++ v) = [k, v] := by
  unfold splitStr
  have hdata : (k ++ "=" ++ v).data = k.data ++ '=' :: v.data := by
    rw [String.data_append, String.data_append, List.append_assoc]
    rfl
  rw [hdata, splitOnChar_append_sep '=' k.data v.data hk, splitOnChar_single '=' v.data hv]
  simp

theorem getD_mem {α : Type} (l : List α) (i : Nat) (d : α) (h : i < l.length) :
    l.getD i d ∈ l := by
  induction l generalizing i with
  | nil => simp at h
  | cons a as ih =>
    cases i with
    | zero => simp
    | succ k =>
      rw [List.getD_cons_succ]
      exact List.mem_cons_of_mem a (ih k (Nat.lt_of_succ_lt_succ h))

theorem dictInsert_clean {m : List (String × String)} {k v : String}
    (hm : ∀ kv ∈ m, '=' ∉ kv.1.data ∧ '=' ∉ kv.2.data)
    (hk : '=' ∉ k.data) (hv : '=' ∉ v.data) :
    ∀ kv ∈ dictInsert m k v, '=' ∉ kv.1.data ∧ '=' ∉ kv.2.data := by
  intro kv hkv
  unfold dictInsert at hkv
  split at hkv
  · obtain ⟨kv0, hkv0, hmap⟩ := List.mem_map.mp hkv
    by_cases hc : kv0.1 = k
    · rw [if_pos hc] at hmap
      subst hmap
      exact ⟨hk, hv⟩
    · rw [if_neg hc] at hmap
      subst hmap
      exact hm kv0 hkv0
  · rcases List.mem_append.mp hkv with h | h
    · exact hm kv h
    · rw [List.mem_singleton] at h
      subst h
      exact ⟨hk, hv⟩

theorem dictInsert_keys_nodup {m : List (String × String)} {k v : String}
    (hm : (m.map Prod.fst).Nodup) : ((dictInsert m k v).map Prod.fst).Nodup := by
  unfold dictInsert
  split
  · have hkeys : (m.map (fun kv => if kv.1 = k then (k, v) else kv)).map Prod.fst =
        m.map Prod.fst := by
      rw [List.map_map]
      refine List.map_congr_left ?_
      intro kv _
      by_cases hc : kv.1 = k
      · simp [hc]
      · simp [hc]
    rw [hkeys]
    exact hm
  · rename_i hany
    rw [List.map_append]
    simp only [List.map_cons, List.map_nil]
    rw [List.nodup_append]
    refine ⟨hm, List.nodup_singleton k, ?_⟩
    intro a ha hb
    rw [List.mem_singleton] at hb
    subst hb
    obtain ⟨kv, hkv, hfst⟩ := List.mem_map.mp ha
    exact hany (List.any_eq_true.mpr ⟨kv, hkv, by simp [hfst]⟩)

theorem metaBuild_clean {ls : List String} {m0 m : List (String × String)}
    (h : metaBuild m0 ls = Except.ok m)
    (hc : ∀ kv ∈ m0, '=' ∉ kv.1.data ∧ '=' ∉ kv.2.data)
    (hn : (m0.map Prod.fst).Nodup) :
    (∀ kv ∈ m, '=' ∉ kv.1.data ∧ '=' ∉ kv.2.data) ∧ (m.map Prod.fst).Nodup := by
  induction ls generalizing m0 with
  | nil =>
    unfold metaBuild at h
    injection h with h
    subst h
    exact ⟨hc, hn⟩
  | cons line rest ih =>
    unfold metaBuild at h
    split at h
    · exact Except.noConfusion h
    · rename_i hlen
      have hlen2 : 2 ≤ (splitStr '=' line).length := Nat.le_of_not_lt hlen
      have hkey : '=' ∉ ((splitStr '=' line).getD 0 "").data :=
        splitStr_no_sep '=' line _ (getD_mem _ 0 "" (Nat.lt_of_lt_of_le (by decide) hlen2))
      have hval : '=' ∉ ((splitStr '=' line).getD 1 "").data :=
        splitStr_no_sep '=' line _ (getD_mem _ 1 "" (Nat.lt_of_lt_of_le (by decide) hlen2))
      exact ih h (dictInsert_clean hc hkey hval) (dictInsert_keys_nodup hn)

theorem dictInsert_notmem {m : List (String × String)} {k v : String}
    (h : ∀ kv ∈ m, kv.1 ≠ k) : dictInsert m k v = m ++ [(k, v)] := by
  unfold dictInsert
  rw [if_neg]
  intro hany
  obtain ⟨kv, hkv, hk⟩ := List.any_eq_true.mp hany
  exact h kv hkv (by simpa using hk)

theorem metaBuild_serialize (rest : List (String × String)) :
    ∀ m0 : List (String × String),
    (∀ kv ∈ rest, '=' ∉ kv.1.data ∧ '=' ∉ kv.2.data) →
    ((rest.map Prod.fst).Nodup) →
    (∀ kv ∈ rest, ∀ kv0 ∈ m0, kv0.1 ≠ kv.1) →
    metaBuild m0 (rest.map (fun kv => kv.1 ++ "=" ++ kv.2)) = Except.ok (m0 ++ rest) := by
  induction rest with
  | nil =>
    intro m0 _ _ _
    simp [metaBuild]
  | cons kv rest ih =>
    intro m0 hc hn hdisj
    obtain ⟨k, v⟩ := kv
    have hkc : '=' ∉ k.data := (hc (k, v) (List.mem_cons_self _ _)).1
    have hvc : '=' ∉ v.data := (hc (k, v) (List.mem_cons_self _ _)).2
    simp only [List.map_cons, metaBuild, splitStr_cat k v hkc hvc]
    rw [if_neg (show ¬(([k, v] : List String).length < 2) from by simp)]
    simp only [List.getD_cons_zero, List.getD_cons_succ]
    rw [dictInsert_notmem (fun kv0 hkv0 => hdisj (k, v) (List.mem_cons_self _ _) kv0 hkv0)]
    have hknotin : k ∉ (rest.map Prod.fst) := by
      have := hn
      rw [List.map_cons, List.nodup_cons] at this
      exact this.1
    rw [ih (m0 ++ [(k, v)])
      (fun kv2 h2 => hc kv2 (List.mem_cons_of_mem _ h2))
      (by rw [List.map_cons, List.nodup_cons] at hn; exact hn.2)
      ?_]
    · rw [List.append_assoc]
      rfl
    · intro kv2 h2 kv0 h0
      rcases List.mem_append.mp h0 with h0 | h0
      · exact hdisj kv2 (List.mem_cons_of_mem _ h2) kv0 h0
      · rw [List.mem_singleton] at h0
        subst h0
        intro hkk
        apply hknotin
        rw [show k = kv2.1 from hkk]
        exact List.mem_map.mpr ⟨kv2, h2, rfl⟩

/-- C8, amended: re-serializing a parsed metadata mapping as
`KEY=VALUE` lines and re-parsing them with the block metadata
post-pass yields the same mapping — parsed keys and values never
contain `=` (each is one `split('=')` segment), keys are unique,
and the last occurrence of a key wins, so the rebuilt dictionary
is identical.  (The split itself takes the key before the first
`=` and the value between the first and second `=`.) -/
theorem c8_roundtrip (ls : List String) (m : List (String × String))
    (h : metaFinalize ls = Except.ok m) :
    metaFinalize (m.map (fun kv => kv.1 ++ "=" ++ kv.2)) = Except.ok m := by
  unfold metaFinalize at h ⊢
  obtain ⟨hc, hn⟩ := metaBuild_clean h (by simp) (by simp)
  have := metaBuild_serialize m [] hc hn (by simp)
  simpa using this

theorem c8_roundtrip_witness :
    metaFinalize ["A=1", "B=2", "A=3"] = Except.ok [("A", "3"), ("B", "2")] ∧
    metaFinalize ([("A", "3"), ("B", "2")].map (fun kv => kv.1 ++ "=" ++ kv.2)) =
      Except.ok [("A", "3"), ("B", "2")] :=
  ⟨by decide, c8_roundtrip ["A=1", "B=2", "A=3"] [("A", "3"), ("B", "2")] (by decide)⟩

theorem sealCur_sum (st : PState) :
    ((sealCur st).map BlockAcc.emitCount).sum = emitTotal st := by
  unfold sealCur emitTotal
  cases st.cur with
  | none => simp
  | some a =>
    show (List.map BlockAcc.emitCount
        (if a.emitCount = 0 then st.finished else st.finished ++ [a])).sum =
      (List.map BlockAcc.emitCount st.finished).sum + a.emitCount
    by_cases h0 : a.emitCount = 0
    · rw [if_pos h0, h0]
      omega
    · rw [if_neg h0]
      simp

theorem emitTotal_startBlock (st : PState) : emitTotal (startBlock st) = emitTotal st := by
  have := sealCur_sum st
  unfold startBlock emitTotal
  simpa using this

theorem emitTotal_startApply (st : PState) (d : String) :
    emitTotal (startApply st d) = emitTotal st := by
  unfold startApply
  split
  · exact emitTotal_startBlock st
  · rfl

theorem emApply_emitTotal {st1 st2 : PState} (h : emApply st1 = Except.ok st2) :
    emitTotal st2 = emitTotal st1 + 1 := by
  unfold emApply at h
  split at h
  · exact Except.noConfusion h
  · rename_i a ha
    injection h with h
    subst h
    unfold emitTotal
    rw [ha]
    simp only []
    omega

theorem dataApply_emitTotal {st2 : PState} {d : String} {st' : PState}
    (h : dataApply st2 d = Except.ok st') : emitTotal st' = emitTotal st2 := by
  unfold dataApply at h
  split at h
  · exact Except.noConfusion h
  · split at h
    · exact Except.noConfusion h
    · rename_i a ha
      injection h with h
      subst h
      unfold emitTotal
      rw [ha]

theorem metaApply_emitTotal {st2 : PState} {d : String} {st' : PState}
    (h : metaApply st2 d = Except.ok st') : emitTotal st' = emitTotal st2 := by
  unfold metaApply at h
  split at h
  · exact Except.noConfusion h
  · rename_i a ha
    split at h
    · split at h
      · exact Except.noConfusion h
      · injection h with h
        subst h
        unfold emitTotal
        rw [ha]
    · injection h with h
      subst h
      unfold emitTotal
      rw [ha]

theorem pstep_emitTotal {st : PState} {d : String} {st' : PState}
    (h : pstep st d = Except.ok st') :
    emitTotal st' = emitTotal st + (if strStarts "ENDMETADATA" d then 1 else 0) := by
  unfold pstep at h
  by_cases hEM : strStarts "ENDMETADATA" d
  · rw [if_pos hEM] at h
    rw [if_pos hEM]
    cases hema : emApply (startApply st d) with
    | error e =>
      rw [hema] at h
      exact Except.noConfusion h
    | ok st2 =>
      rw [hema] at h
      have h2 : emitTotal st2 = emitTotal st + 1 := by
        rw [emApply_emitTotal hema, emitTotal_startApply]
      simp only [] at h
      split at h
      · rw [dataApply_emitTotal h, h2]
      · split at h
        · injection h with h
          subst h
          exact h2
        · rw [metaApply_emitTotal h, h2]
  · rw [if_neg hEM] at h
    rw [if_neg hEM]
    simp only [] at h
    have h2 : emitTotal (startApply st d) = emitTotal st := emitTotal_startApply st d
    split at h
    · rw [dataApply_emitTotal h, h2]
      omega
    · split at h
      · injection h with h
        subst h
        omega
      · rw [metaApply_emitTotal h, h2]
        omega

theorem countPfx_cons (p d : String) (rest : List String) :
    countPfx p (d :: rest) = (if strStarts p d then 1 else 0) + countPfx p rest := by
  unfold countPfx
  by_cases hc : strStarts p d
  · rw [if_pos hc, List.filter_cons_of_pos (by simpa using hc), List.length_cons]
    omega
  · rw [if_neg hc, List.filter_cons_of_neg (by simpa using hc)]
    omega

theorem runLines_emitTotal {lines : List String} {st st' : PState}
    (h : runLines st lines = Except.ok st') :
    emitTotal st' = emitTotal st + countPfx "ENDMETADATA" lines := by
  induction lines generalizing st with
  | nil =>
    unfold runLines at h
    injection h with h
    subst h
    simp [countPfx]
  | cons d rest ih =>
    unfold runLines at h
    cases hps : pstep st d with
    | error e =>
      rw [hps] at h
      exact Except.noConfusion h
    | ok st1 =>
      rw [hps] at h
      rw [ih h, pstep_emitTotal hps, countPfx_cons]
      omega

theorem metaAll_length {xs : List (List String)} {ms : List (List (String × String))}
    (h : metaAll xs = Except.ok ms) : ms.length = xs.length := by
  induction xs generalizing ms with
  | nil =>
    unfold metaAll at h
    injection h with h
    subst h
    rfl
  | cons x rest ih =>
    unfold metaAll at h
    cases hmf : metaFinalize x with
    | error e =>
      rw [hmf] at h
      exact Except.noConfusion h
    | ok m =>
      rw [hmf] at h
      cases hma : metaAll rest with
      | error e =>
        rw [hma] at h
        exact Except.noConfusion h
      | ok msr =>
        rw [hma] at h
        injection h with h
        subst h
        simp [ih hma]

theorem rawMetaOf_length (bs : List BlockAcc) :
    (rawMetaOf bs).length = (bs.map BlockAcc.emitCount).sum := by
  unfold rawMetaOf
  rw [List.length_flatten, List.map_map]
  congr 1
  refine List.map_congr_left ?_
  intro a _
  simp

theorem rawLcOf_length (bs : List BlockAcc) :
    (rawLcOf bs).length = (bs.map BlockAcc.emitCount).sum := by
  unfold rawLcOf
  rw [List.length_flatten, List.map_map]
  congr 1
  refine List.map_congr_left ?_
  intro a _
  simp

/-- `1` while the machine sits between `STARTMETADATA` and
`ENDMETADATA`, `0` otherwise. -/
def mOpen (s : MState) : Nat :=
  match s with
  | MState.inMeta => 1
  | _ => 0

/-- `1` while the machine is anywhere inside a block, `0` outside. -/
def mBody (s : MState) : Nat :=
  match s with
  | MState.outside => 0
  | _ => 1

theorem strStarts_excl {p q d : String} (h : strStarts p d = true)
    (hlen : q.data.length ≤ p.data.length) (hq : strStarts q p = false) :
    strStarts q d = false := by
  by_contra hc
  rw [Bool.not_eq_false] at hc
  have hb := strStarts_of_both hc h hlen
  rw [hq] at hb
  exact Bool.noConfusion hb

theorem mstep_counts {s : MState} {d : String} {s' : MState}
    (h : mstep s d = some s') :
    ((if strStarts "STARTMETADATA" d then 1 else 0) + mOpen s =
      (if strStarts "ENDMETADATA" d then 1 else 0) + mOpen s') ∧
    ((if strStarts "STARTMETADATA" d then 1 else 0) + mBody s =
      (if strStarts "ENDDATA" d then 1 else 0) + mBody s') := by
  unfold mstep at h
  by_cases hS : strStarts "STARTMETADATA" d
  · have hEM : strStarts "ENDMETADATA" d = false :=
      strStarts_excl hS (by decide) (by decide)
    have hED : strStarts "ENDDATA" d = false :=
      strStarts_excl hS (by decide) (by decide)
    rw [if_pos hS] at h
    cases s with
    | outside =>
      injection h with h
      subst h
      simp [hS, hEM, hED, mOpen, mBody]
    | inMeta => exact Option.noConfusion h
    | inData => exact Option.noConfusion h
  · rw [if_neg hS] at h
    by_cases hEM : strStarts "ENDMETADATA" d
    · have hED : strStarts "ENDDATA" d = false :=
        strStarts_excl hEM (by decide) (by decide)
      rw [if_pos hEM] at h
      cases s with
      | inMeta =>
        injection h with h
        subst h
        simp [hS, hEM, hED, mOpen, mBody]
      | outside => exact Option.noConfusion h
      | inData => exact Option.noConfusion h
    · rw [if_neg hEM] at h
      by_cases hED : strStarts "ENDDATA" d
      · rw [if_pos hED] at h
        cases s with
        | inData =>
          injection h with h
          subst h
          simp [hS, hEM, hED, mOpen, mBody]
        | outside => exact Option.noConfusion h
        | inMeta => exact Option.noConfusion h
      · rw [if_neg hED] at h
        injection h with h
        subst h
        simp [hS, hEM, hED]

theorem mrun_counts {lines : List String} {s s' : MState}
    (h : mrun s lines = some s') :
    (countPfx "STARTMETADATA" lines + mOpen s =
      countPfx "ENDMETADATA" lines + mOpen s') ∧
    (countPfx "STARTMETADATA" lines + mBody s =
      countPfx "ENDDATA" lines + mBody s') := by
  induction lines generalizing s with
  | nil =>
    unfold mrun at h
    injection h with h
    subst h
    simp [countPfx]
  | cons d rest ih =>
    unfold mrun at h
    cases hms : mstep s d with
    | none =>
      rw [hms] at h
      exact Option.noConfusion h
    | some s1 =>
      rw [hms] at h
      obtain ⟨ha, hb⟩ := mstep_counts hms
      obtain ⟨ha', hb'⟩ := ih h
      rw [countPfx_cons, countPfx_cons, countPfx_cons]
      constructor
      · omega
      · omega

theorem wellFormed_mrun {lines : List String} (h : wellFormed lines = true) :
    mrun MState.outside lines = some MState.outside := by
  unfold wellFormed at h
  split at h
  · assumption
  · exact Bool.noConfusion h

/-- C3: for every well-formed file (its STARTMETADATA /
ENDMETADATA / ENDDATA markers drive the block state machine from
`outside` back to `outside`) on which the parse succeeds, the
returned metadata-mapping list and observation-table list have
equal length, and that length equals the number of STARTMETADATA
lines, of ENDMETADATA lines, and of ENDDATA lines. -/
theorem c3_block_counts (lines : List String)
    (ms : List (List (String × String))) (ls : List (List (List ℚ)))
    (hwf : wellFormed lines = true)
    (hok : read_alcdef lines = Except.ok (ms, ls)) :
    ms.length = ls.length ∧
    ms.length = countPfx "STARTMETADATA" lines ∧
    ms.length = countPfx "ENDMETADATA" lines ∧
    ms.length = countPfx "ENDDATA" lines := by
  unfold read_alcdef at hok
  cases hrun : runLines initState lines with
  | error e =>
    rw [hrun] at hok
    exact Except.noConfusion hok
  | ok st =>
    rw [hrun] at hok
    cases hma : metaAll (rawMetaOf (sealCur st)) with
    | error e =>
      simp only [hma] at hok
      exact Except.noConfusion hok
    | ok msa =>
      simp only [hma] at hok
      injection hok with hok
      rw [Prod.mk.injEq] at hok
      obtain ⟨h1, h2⟩ := hok
      subst h1
      subst h2
      have hms : msa.length = emitTotal st := by
        rw [metaAll_length hma, rawMetaOf_length, sealCur_sum]
      have hls : (rawLcOf (sealCur st)).length = emitTotal st := by
        rw [rawLcOf_length, sealCur_sum]
      have hem : emitTotal st = countPfx "ENDMETADATA" lines := by
        have := runLines_emitTotal hrun
        simpa [emitTotal, initState] using this
      obtain ⟨hc1, hc2⟩ := mrun_counts (wellFormed_mrun hwf)
      simp only [mOpen, mBody] at hc1 hc2
      refine ⟨by omega, by omega, by omega, by omega⟩

theorem c3_block_counts_witness :
    wellFormed ["STARTMETADATA", "K=V", "ENDMETADATA", "DATA=1|2|3|4", "ENDDATA"] = true ∧
    read_alcdef ["STARTMETADATA", "K=V", "ENDMETADATA", "DATA=1|2|3|4", "ENDDATA"] =
      Except.ok ([[("K", "V")]], [[[(1 : ℚ), 2, 3, 4]]]) ∧
    ([[("K", "V")]] : List (List (String × String))).length =
      countPfx "STARTMETADATA" ["STARTMETADATA", "K=V", "ENDMETADATA", "DATA=1|2|3|4", "ENDDATA"] :=
  ⟨by decide, by decide,
    (c3_block_counts _ [[("K", "V")]] [[[(1 : ℚ), 2, 3, 4]]] (by decide) (by decide)).2.1⟩

end Ssdpu
